import Mathlib

/-!
Verification of `postgresql/documentation/lib.py` (query libraries and
categories).  The repository ships the documentation module itself; the
documented engine (`postgresql.lib`) is described by the narrative and by
the specification.  Definitions marked `Modelled from the spec:` embed the
missing engine faithfully to the spec's words; the `__main__` dispatch at
the bottom of `lib.py` is embedded directly from the source.
-/

namespace PgLib

/-! ### The script entry point (src/postgresql/documentation/lib.py, lines 512-520)

The module, run as a script, evaluates `(sys.argv + [None])[1]`; when that
value is the string `'dump'` it writes the module docstring to stdout,
otherwise it calls `help(__package__ + '.lib')`, catching only `NameError`
and falling back to `help(__name__)`. -/

/-- A Python value appearing in the list `sys.argv + [None]`:
either a string from `sys.argv` or the appended `None`. -/
inductive PyVal where
  | str (s : String)
  | pynone
  deriving DecidableEq, Repr

/-- The list `sys.argv + [None]` built from the program name (`sys.argv[0]`,
always present when the module is executed as a script) and the
command-line argument list. -/
def extendedArgv (prog : String) (args : List String) : List PyVal :=
  (prog :: args).map PyVal.str ++ [PyVal.pynone]

/-- Python list indexing: `l[i]` yields the element or an `IndexError`
(modelled as `none`). -/
def pyIndex (l : List PyVal) (i : Nat) : Option PyVal :=
  l.get? i

/-- The action taken by the `__main__` block. -/
inductive MainAction where
  | dumpDoc
  | helpPath
  deriving DecidableEq, Repr

/-- Embeds lines 512-520 of `lib.py`: evaluate `(sys.argv + [None])[1]`;
on `'dump'` write the docstring (`dumpDoc`), otherwise take the help path.
`Except` carries a possible `IndexError` from the subscript. -/
def mainDispatch (prog : String) (args : List String) : Except Unit MainAction :=
  match pyIndex (extendedArgv prog args) 1 with
  | Option.none => .error ()
  | Option.some v => if v = PyVal.str "dump" then .ok .dumpDoc else .ok .helpPath

/-- How the name `__package__` is bound in the module executing the script:
unbound (lookup raises `NameError`), bound to `None`, or bound to a string. -/
inductive PkgBinding where
  | unbound
  | boundNone
  | bound (s : String)
  deriving DecidableEq, Repr

/-- Python exceptions relevant to the help branch. -/
inductive PyExc where
  | nameError
  | typeError
  | otherExc
  deriving DecidableEq, Repr

/-- The value the `help(...)` call in the else-branch is reached with. -/
inductive HelpTarget where
  | pkgHelp (s : String)
  | nameHelp (s : String)
  deriving DecidableEq, Repr

/-- Evaluating the expression `__package__ + '.lib'`: an unbound
`__package__` raises `NameError`; `__package__ = None` makes `None + str`
raise `TypeError`; a string binding concatenates. -/
def pkgPlusLib (pkg : PkgBinding) : Except PyExc String :=
  match pkg with
  | .unbound => .error .nameError
  | .boundNone => .error .typeError
  | .bound s => .ok (s ++ ".lib")

/-- Embeds lines 517-520 of `lib.py`: `try: help(__package__ + '.lib')
except NameError: help(__name__)`.  Only `NameError` is caught; every
other exception propagates. -/
def helpBranch (pkg : PkgBinding) (name : String) : Except PyExc HelpTarget :=
  match pkgPlusLib pkg with
  | .ok t => .ok (.pkgHelp t)
  | .error PyExc.nameError => .ok (.nameHelp name)
  | .error e => .error e

/-! ### The library engine, modelled from the spec

The implementation module `postgresql/lib.py` is not part of this tree;
the definitions below are modelled from the specification's words
(spec §3, §4, §6) and from the narrative in the documentation module. -/

/-- Modelled from the spec: the symbol `type` axis,
`type ∈ {default, preload, const, proc}` (spec §3); `postgresql.lib` is
missing from the tree. -/
inductive SymType where
  | dfault
  | preload
  | const
  | proc
  deriving DecidableEq, Repr

/-- Modelled from the spec: the symbol `method` axis, `method ∈ {default,
rows, chunks, first, column, declare, load_rows, load_chunks}` (spec §3);
`postgresql.lib` is missing from the tree. -/
inductive SymMethod where
  | dfault
  | rows
  | chunks
  | first
  | column
  | declare
  | load_rows
  | load_chunks
  deriving DecidableEq, Repr

/-- A parsed section marker: name plus effective type and method. -/
structure Marker where
  name : String
  type : SymType
  method : SymMethod
  deriving DecidableEq, Repr

/-- Parse/format failures of the ILF text parser (spec §4.1, §7). -/
inductive FormatError where
  | badMarker (line : String)
  | emptyName (line : String)
  | unknownType (s : String)
  | unknownMethod (s : String)
  | tooManyComponents (line : String)
  deriving DecidableEq, Repr

/-- Modelled from the spec: the type component of a marker; an empty
component means "apply the default for that axis" (spec §4.1);
`postgresql.lib` is missing from the tree. -/
def parseType (s : String) : Option SymType :=
  if s = "" then some .dfault
  else if s = "preload" then some .preload
  else if s = "const" then some .const
  else if s = "proc" then some .proc
  else none

/-- Modelled from the spec: the method component of a marker; an empty
component means "apply the default for that axis" (spec §4.1);
`postgresql.lib` is missing from the tree. -/
def parseMethod (s : String) : Option SymMethod :=
  if s = "" then some .dfault
  else if s = "rows" then some .rows
  else if s = "chunks" then some .chunks
  else if s = "first" then some .first
  else if s = "column" then some .column
  else if s = "declare" then some .declare
  else if s = "load_rows" then some .load_rows
  else if s = "load_chunks" then some .load_chunks
  else none

/-- Modelled from the spec: resolve the colon-separated component list of
a section marker (0, 1, or 2 colons, so 1-3 components); the name is
required and must be non-empty, omitted or empty components take the
default for their axis (spec §4.1); `postgresql.lib` is missing from
the tree. -/
def parseComponents (line : String) (parts : List String) :
    Except FormatError Marker :=
  match parts with
  | [n] =>
      if n = "" then .error (.emptyName line)
      else .ok ⟨n, .dfault, .dfault⟩
  | [n, t] =>
      if n = "" then .error (.emptyName line)
      else match parseType t with
        | Option.none => .error (.unknownType t)
        | Option.some ty => .ok ⟨n, ty, .dfault⟩
  | [n, t, m] =>
      if n = "" then .error (.emptyName line)
      else match parseType t with
        | Option.none => .error (.unknownType t)
        | Option.some ty =>
            match parseMethod m with
            | Option.none => .error (.unknownMethod m)
            | Option.some me => .ok ⟨n, ty, me⟩
  | _ => .error (.tooManyComponents line)

/-- Split a character sequence on `:` separators (the marker component
separator, spec §4.1). -/
def splitColons : List Char → List (List Char)
  | [] => [[]]
  | c :: cs =>
      if c = ':' then [] :: splitColons cs
      else
        match splitColons cs with
        | [] => [[c]]
        | p :: ps => (c :: p) :: ps

/-- Modelled from the spec: parse one section-marker line
`[name[:type[:method]]]` (spec §4.1, §6); `postgresql.lib` is missing
from the tree. -/
def parseMarker (line : String) : Except FormatError Marker :=
  match line.toList with
  | '[' :: rest =>
      if rest.getLast? = some ']' then
        parseComponents line ((splitColons rest.dropLast).map List.asString)
      else .error (.badMarker line)
  | _ => .error (.badMarker line)

/-- A raw symbol record: parsed marker plus verbatim statement body. -/
structure RawSymbol where
  marker : Marker
  body : String
  deriving DecidableEq, Repr

/-- A Library: an immutable named, ordered collection of symbols
(spec §3). -/
structure Library where
  name : String
  symbols : List RawSymbol
  deriving DecidableEq, Repr

/-- Definition-time failures (spec §7). -/
inductive DefinitionError where
  | duplicateSymbol (n : String)
  | duplicateAttribute (n : String)
  deriving DecidableEq, Repr

/-- The declared symbol names of a record list, in declaration order. -/
def symbolNames (recs : List RawSymbol) : List String :=
  recs.map (fun r => r.marker.name)

/-- The first element of a list that occurs again later, if any. -/
def firstDup : List String → Option String
  | [] => Option.none
  | x :: xs => if x ∈ xs then some x else firstDup xs

/-- Modelled from the spec: `buildLibrary(source) -> Library`, failing
with a definition error on a duplicate symbol name and never silently
overwriting one symbol with another (spec §4.3, §8); `postgresql.lib` is
missing from the tree. -/
def buildLibrary (nm : String) (recs : List RawSymbol) :
    Except DefinitionError Library :=
  match firstDup (symbolNames recs) with
  | Option.some n => .error (.duplicateSymbol n)
  | Option.none => .ok ⟨nm, recs⟩

/-! ### Connection capability and statement results -/

/-- A result set produced by executing a statement: either row data with
a column count, or a non-row-returning command tag with an affected-row
count (spec §4.4, §6).  Values are modelled as integers. -/
inductive StmtResult where
  | rowData (cols : Nat) (data : List (List Int))
  | dml (tag : String) (count : Nat)
  deriving DecidableEq, Repr

/-- Modelled from the spec: the connection's statement-preparation and
execution capability (spec §6), `postgresql.lib`'s bind target being
missing from the tree.  `runStmt` is the database oracle assigning each
statement text and parameter list its result; `prepLog` and `execLog`
record, in order, the statement texts of every preparation request and
every execution issued against the connection. -/
structure DB where
  runStmt : String → List Int → StmtResult
  prepLog : List String
  execLog : List String

/-- Issue a preparation request for a statement text (spec §6
`prepare(statementText) -> StatementHandle`). -/
def prepareStmt (db : DB) (text : String) : DB :=
  { db with prepLog := db.prepLog ++ [text] }

/-- Execute a prepared statement with parameters, logging the
execution. -/
def executeStmt (db : DB) (text : String) (params : List Int) :
    StmtResult × DB :=
  (db.runStmt text params, { db with execLog := db.execLog ++ [text] })

/-- A Binding's resolved accessor for one symbol: a captured constant
value (`const` symbols expose the value directly, not a callable), a live
prepared-statement handle, or a never-yet-prepared placeholder
(spec §3 Binding). -/
inductive Accessor where
  | value (v : StmtResult)
  | handle (text : String)
  | placeholder (text : String)
  deriving DecidableEq, Repr

/-- A Binding: the attachment of a Library to one connection, mapping
each symbol name to its resolved accessor (spec §3). -/
structure Binding where
  libName : String
  accessors : List (String × Accessor)
  deriving DecidableEq, Repr

/-- Modelled from the spec: the bind-time treatment of one symbol
(spec §4.4): `const` symbols are prepared and immediately executed with
zero parameters, the result captured and the handle discarded; `preload`
and `proc` symbols are prepared and their handle stored; default-type
symbols only record a placeholder. -/
def bindSymbol (db : DB) (r : RawSymbol) : (String × Accessor) × DB :=
  match r.marker.type with
  | .const =>
      let db1 := prepareStmt db r.body
      let (res, db2) := executeStmt db1 r.body []
      ((r.marker.name, .value res), db2)
  | .preload => ((r.marker.name, .handle r.body), prepareStmt db r.body)
  | .proc => ((r.marker.name, .handle r.body), prepareStmt db r.body)
  | .dfault => ((r.marker.name, .placeholder r.body), db)

/-- One step of the bind-time fold over a Library's symbols. -/
def bindStep (acc : List (String × Accessor) × DB) (r : RawSymbol) :
    List (String × Accessor) × DB :=
  let (p, db') := bindSymbol acc.2 r
  (acc.1 ++ [p], db')

/-- Modelled from the spec: `bind(library, connection) -> Binding`,
processing symbols in declaration order (spec §4.4); `postgresql.lib` is
missing from the tree. -/
def bind (lib : Library) (db : DB) : Binding × DB :=
  let out := lib.symbols.foldl bindStep (([] : List (String × Accessor)), db)
  (⟨lib.name, out.1⟩, out.2)

/-- Look a symbol's accessor up on a Binding by name. -/
def Binding.lookup (b : Binding) (n : String) : Option Accessor :=
  (b.accessors.find? (fun p => p.1 = n)).map (fun p => p.2)

/-- Replace a symbol's accessor on a Binding. -/
def Binding.store (b : Binding) (n : String) (a : Accessor) : Binding :=
  ⟨b.libName, b.accessors.map (fun p => if p.1 = n then (n, a) else p)⟩

/-- Modelled from the spec: single-context first-use resolution
(spec §4.4): accessing a placeholder issues one preparation request and
caches the handle; accessing an already-resolved accessor (a handle or a
`const` value) touches neither the Binding nor the connection. -/
def access (b : Binding) (db : DB) (n : String) :
    Option (Accessor × Binding × DB) :=
  match b.lookup n with
  | Option.none => Option.none
  | Option.some (.placeholder text) =>
      some (.handle text, b.store n (.handle text), prepareStmt db text)
  | Option.some a => some (a, b, db)

/-! ### Execution-method dispatch -/

/-- The value returned by a `first`-method invocation: a scalar, a full
row, or an affected-row count; `Option.none` is the defined empty
sentinel (`None`). -/
inductive FirstOut where
  | scalar (v : Int)
  | fullRow (r : List Int)
  | affected (n : Nat)
  deriving DecidableEq, Repr

/-- Modelled from the spec: the `first` execution method (spec §4.4):
one column → the first row's single value, or the empty sentinel when
there are no rows; multiple columns → the entire first row; non-row DML →
the affected-row count; `postgresql.lib` is missing from the tree. -/
def firstMethod (res : StmtResult) : Option FirstOut :=
  match res with
  | .dml _ n => some (.affected n)
  | .rowData _ [] => Option.none
  | .rowData cols (r :: _) =>
      if cols = 1 then r.head?.map .scalar else some (.fullRow r)

/-- The row sequence underlying a result (what a `rows`-method iterator
produces, spec §4.4). -/
def rowsOf (res : StmtResult) : List (List Int) :=
  match res with
  | .rowData _ d => d
  | .dml _ _ => []

/-- Modelled from the spec: the `rows` execution method applied to a
statement and parameters (spec §4.4); `postgresql.lib` is missing from
the tree. -/
def rowsInvoke (run : String → List Int → StmtResult) (text : String)
    (params : List Int) : List (List Int) :=
  rowsOf (run text params)

/-- Split a list into batches of `k + 1` elements (the last may be
shorter): the result-streaming capability's chunking (spec §6). -/
def chunked (k : Nat) : List α → List (List α)
  | [] => []
  | x :: xs => (x :: xs.take k) :: chunked k (xs.drop k)
termination_by l => l.length
decreasing_by
  simp only [List.length_drop, List.length_cons]
  omega

/-- Modelled from the spec: the `chunks` execution method, producing
batches of rows over the same stream the `rows` method draws from
(spec §4.4); `postgresql.lib` is missing from the tree. -/
def chunksInvoke (k : Nat) (run : String → List Int → StmtResult)
    (text : String) (params : List Int) : List (List (List Int)) :=
  chunked k (rowsInvoke run text params)

/-- Modelled from the spec: the `column` execution method, producing the
first column's values only (`map(operator.itemgetter(0), ps.rows())`,
spec §4.4); `postgresql.lib` is missing from the tree. -/
def columnInvoke (run : String → List Int → StmtResult) (text : String)
    (params : List Int) : List (Option Int) :=
  go (rowsInvoke run text params)
where
  go : List (List Int) → List (Option Int)
    | [] => []
    | r :: rs => r.head? :: go rs

/-! ### Categories -/

/-- A Category: an ordered collection of (Library, attribute-name) pairs
with unique attribute names (spec §3, §4.5). -/
structure Category where
  pairs : List (Library × String)
  deriving Repr

/-- The attribute name chosen for a pair: the remapped name when given,
otherwise the Library's own name (spec §3 Category). -/
def chosenName (p : Library × Option String) : String :=
  p.2.getD p.1.name

/-- Modelled from the spec: the Category constructor over (Library,
optional attribute-name) pairs, failing with a definition error on
duplicate attribute names, before any connection is touched (spec §4.5);
`postgresql.lib` is missing from the tree. -/
def Category.make (ps : List (Library × Option String)) :
    Except DefinitionError Category :=
  match firstDup (ps.map chosenName) with
  | Option.some n => .error (.duplicateAttribute n)
  | Option.none => .ok ⟨ps.map (fun p => (p.1, chosenName p))⟩

/-- One step of `Category.applyTo`'s fold over its pairs. -/
def applyStep (acc : List (String × Binding) × DB) (p : Library × String) :
    List (String × Binding) × DB :=
  let (b, db') := bind p.1 acc.2
  (acc.1 ++ [(p.2, b)], db')

/-- Modelled from the spec: `apply(connection)`: one Binding per pair, in
order, attached under the chosen attribute name (spec §4.5);
`postgresql.lib` is missing from the tree. -/
def Category.applyTo (c : Category) (db : DB) :
    List (String × Binding) × DB :=
  c.pairs.foldl applyStep (([] : List (String × Binding)), db)

/-- The accessor `bind` resolves one symbol to, as a function of the
database oracle alone (the logs do not influence results). -/
def bindAccessor (run : String → List Int → StmtResult) (r : RawSymbol) :
    Accessor :=
  match r.marker.type with
  | .const => .value (run r.body [])
  | .preload => .handle r.body
  | .proc => .handle r.body
  | .dfault => .placeholder r.body

/-- The preparation requests one symbol issues at bind time: every
non-default symbol is prepared (spec §4.4). -/
def prepOf (r : RawSymbol) : List String :=
  match r.marker.type with
  | .dfault => []
  | _ => [r.body]

/-- The executions one symbol issues at bind time: exactly the `const`
symbols execute, once each (spec §4.4). -/
def execOf (r : RawSymbol) : List String :=
  match r.marker.type with
  | .const => [r.body]
  | _ => []

/-- The Binding `bind` produces, as a function of the database oracle
alone. -/
def mkBinding (run : String → List Int → StmtResult) (lib : Library) :
    Binding :=
  ⟨lib.name, lib.symbols.map (fun r => (r.marker.name, bindAccessor run r))⟩

/-! ### Concrete sample data used by witness statements -/

/-- A sample database oracle: every statement yields one single-column
row holding 42. -/
def demoRun : String → List Int → StmtResult :=
  fun _ _ => .rowData 1 [[42]]

/-- A sample connection with empty logs. -/
def demoDB : DB := ⟨demoRun, [], []⟩

/-- A sample `const` symbol. -/
def constSym : RawSymbol := ⟨⟨"c", SymType.const, SymMethod.dfault⟩, "SELECT 1"⟩

/-- A sample library holding the one `const` symbol. -/
def demoLib : Library := ⟨"demo", [constSym]⟩

/-- A sample empty library named `A`. -/
def libA : Library := ⟨"A", []⟩

/-- A sample empty library named `B`. -/
def libB : Library := ⟨"B", []⟩

/-! ### Concurrent first-use resolution

Modelled from the spec (§4.4, §5): the first-use resolution cache of a
default-type symbol uses an exclusive-acquire-then-publish discipline.
Concurrent callers are modelled as an interleaving transition system over
one symbol's cache: each caller either reads an already-published handle,
or acquires the per-symbol update lock, issues the (unique) preparation
request to the connection, publishes the handle and releases the lock.
`prepCount` counts preparation requests issued against the connection;
`nextHandle` is the connection's supply of fresh handles. -/

namespace FirstUse

/-- One caller's progress through first-use resolution. -/
inductive Phase where
  | start
  | locked
  | prepared (h : Nat)
  | done (h : Nat)
  deriving DecidableEq, Repr

/-- The shared state: the published-handle cache, the per-symbol update
lock (holding caller's index, if any), the number of preparation requests
issued so far, the connection's next fresh handle, and each caller's
phase (`phases[i]` is caller `i`). -/
structure CState where
  cache : Option Nat
  lock : Option Nat
  prepCount : Nat
  nextHandle : Nat
  phases : List Phase
  deriving DecidableEq, Repr

/-- The initial state for `n` callers: nothing cached, lock free, no
preparation issued. -/
def initState (n : Nat) : CState :=
  ⟨Option.none, Option.none, 0, 0, List.replicate n .start⟩

/-- Modelled from the spec: one interleaved step of the
exclusive-acquire-then-publish discipline (spec §4.4, §5).  A caller may
read a published handle; acquire the free lock when nothing is published;
holding the lock, issue the preparation request; or publish its prepared
handle and release the lock.  A caller at `start` with the cache empty
and the lock held can take no step: it waits for the winner's handle. -/
inductive Step : CState → CState → Prop where
  | readCache (s : CState) (i h : Nat) :
      s.phases.get? i = some .start → s.cache = some h →
      Step s { s with phases := s.phases.set i (.done h) }
  | acquire (s : CState) (i : Nat) :
      s.phases.get? i = some .start → s.cache = Option.none →
      s.lock = Option.none →
      Step s { s with lock := some i, phases := s.phases.set i .locked }
  | doPrepare (s : CState) (i : Nat) :
      s.phases.get? i = some .locked → s.lock = some i →
      Step s { s with
        prepCount := s.prepCount + 1,
        nextHandle := s.nextHandle + 1,
        phases := s.phases.set i (.prepared s.nextHandle) }
  | publish (s : CState) (i h : Nat) :
      s.phases.get? i = some (.prepared h) → s.lock = some i →
      Step s { s with
        cache := some h,
        lock := Option.none,
        phases := s.phases.set i (.done h) }

/-- States reachable from the `n`-caller initial state by interleaved
steps. -/
inductive Reachable : CState → Prop where
  | init (n : Nat) : Reachable (initState n)
  | step {s s' : CState} : Reachable s → Step s s' → Reachable s'

/-- The inductive invariant of the discipline: lock holders are exactly
the callers mid-resolution, the cache stays empty while the lock is held,
finished callers saw the published handle, and the preparation count is
0 before anyone prepares and 1 from then on. -/
structure Inv (s : CState) : Prop where
  locked_lock : ∀ i, s.phases.get? i = some .locked → s.lock = some i
  prepared_lock : ∀ i h, s.phases.get? i = some (.prepared h) →
    s.lock = some i
  lock_cache : ∀ i, s.lock = some i → s.cache = Option.none
  done_cache : ∀ i h, s.phases.get? i = some (.done h) →
    s.cache = some h
  count_one : (s.cache.isSome ∨ ∃ i h, s.phases.get? i = some (.prepared h)) →
    s.prepCount = 1
  count_zero : s.cache = Option.none →
    (∀ i h, s.phases.get? i ≠ some (.prepared h)) → s.prepCount = 0

/-- The final state of a sample two-caller run: caller 0 won the race and
prepared handle 0, caller 1 read it from the cache. -/
def demoFinal : CState :=
  ⟨some 0, Option.none, 1, 1, [.done 0, .done 0]⟩

theorem inv_init (n : Nat) : Inv (initState n) := by
  have hall : ∀ (j : Nat) (p : Phase),
      (initState n).phases.get? j = some p → p = Phase.start := by
    intro j p hj
    exact List.eq_of_mem_replicate (List.get?_mem hj)
  constructor
  · intro i hi
    exact absurd (hall i _ hi) (by simp)
  · intro i h hi
    exact absurd (hall i _ hi) (by simp)
  · intro i hi
    rfl
  · intro i h hi
    exact absurd (hall i _ hi) (by simp)
  · rintro (hc | ⟨i, h, hi⟩)
    · simp [initState] at hc
    · exact absurd (hall i _ hi) (by simp)
  · intro _ _
    rfl

theorem inv_step {s s' : CState} (inv : Inv s) (st : Step s s') : Inv s' := by
  cases st with
  | readCache i h hst hc =>
    obtain ⟨hlen, -⟩ := List.get?_eq_some.mp hst
    constructor
    · intro j hj
      simp only at hj ⊢
      by_cases hij : j = i
      · subst hij
        rw [List.get?_set_eq_of_lt _ hlen] at hj
        exact absurd hj (by simp)
      · rw [List.get?_set_ne _ _ (Ne.symm hij)] at hj
        exact inv.locked_lock j hj
    · intro j h' hj
      simp only at hj ⊢
      by_cases hij : j = i
      · subst hij
        rw [List.get?_set_eq_of_lt _ hlen] at hj
        exact absurd hj (by simp)
      · rw [List.get?_set_ne _ _ (Ne.symm hij)] at hj
        exact inv.prepared_lock j h' hj
    · intro j hlj
      simp only at hlj ⊢
      rw [inv.lock_cache j hlj] at hc
      exact absurd hc (by simp)
    · intro j h' hj
      simp only at hj ⊢
      by_cases hij : j = i
      · subst hij
        rw [List.get?_set_eq_of_lt _ hlen] at hj
        obtain rfl : h = h' := Phase.done.inj (Option.some.inj hj)
        exact hc
      · rw [List.get?_set_ne _ _ (Ne.symm hij)] at hj
        exact inv.done_cache j h' hj
    · intro _
      exact inv.count_one (Or.inl (by simp [hc]))
    · intro hnone _
      simp only at hnone
      rw [hc] at hnone
      exact absurd hnone (by simp)
  | acquire i hst hc hl =>
    obtain ⟨hlen, -⟩ := List.get?_eq_some.mp hst
    constructor
    · intro j hj
      simp only at hj ⊢
      by_cases hij : j = i
      · subst hij
        rfl
      · rw [List.get?_set_ne _ _ (Ne.symm hij)] at hj
        rw [inv.locked_lock j hj] at hl
        exact absurd hl (by simp)
    · intro j h' hj
      simp only at hj ⊢
      by_cases hij : j = i
      · subst hij
        rfl
      · rw [List.get?_set_ne _ _ (Ne.symm hij)] at hj
        rw [inv.prepared_lock j h' hj] at hl
        exact absurd hl (by simp)
    · intro j _
      simpa using hc
    · intro j h' hj
      simp only at hj ⊢
      by_cases hij : j = i
      · subst hij
        rw [List.get?_set_eq_of_lt _ hlen] at hj
        exact absurd hj (by simp)
      · rw [List.get?_set_ne _ _ (Ne.symm hij)] at hj
        rw [inv.done_cache j h' hj] at hc
        exact absurd hc (by simp)
    · rintro (hcs | ⟨j, h', hj⟩)
      · simp [hc] at hcs
      · simp only at hj
        by_cases hij : j = i
        · subst hij
          rw [List.get?_set_eq_of_lt _ hlen] at hj
          exact absurd hj (by simp)
        · rw [List.get?_set_ne _ _ (Ne.symm hij)] at hj
          rw [inv.prepared_lock j h' hj] at hl
          exact absurd hl (by simp)
    · intro _ _
      exact inv.count_zero hc (fun j h' hj => by
        rw [inv.prepared_lock j h' hj] at hl
        exact absurd hl (by simp))
  | doPrepare i hlk hli =>
    obtain ⟨hlen, -⟩ := List.get?_eq_some.mp hlk
    have hc : s.cache = Option.none := inv.lock_cache i hli
    have hzero : s.prepCount = 0 := by
      refine inv.count_zero hc (fun j h' hj => ?_)
      have := inv.prepared_lock j h' hj
      rw [hli] at this
      obtain rfl : j = i := (Option.some.inj this).symm
      rw [hlk] at hj
      exact absurd (Option.some.inj hj) (by simp)
    constructor
    · intro j hj
      simp only at hj ⊢
      by_cases hij : j = i
      · subst hij
        rw [List.get?_set_eq_of_lt _ hlen] at hj
        exact absurd hj (by simp)
      · rw [List.get?_set_ne _ _ (Ne.symm hij)] at hj
        have := inv.locked_lock j hj
        rw [hli] at this
        exact absurd (Option.some.inj this).symm hij
    · intro j h' hj
      simp only at hj ⊢
      by_cases hij : j = i
      · subst hij
        exact hli
      · rw [List.get?_set_ne _ _ (Ne.symm hij)] at hj
        have := inv.prepared_lock j h' hj
        rw [hli] at this
        exact absurd (Option.some.inj this).symm hij
    · intro j _
      simpa using hc
    · intro j h' hj
      simp only at hj ⊢
      by_cases hij : j = i
      · subst hij
        rw [List.get?_set_eq_of_lt _ hlen] at hj
        exact absurd hj (by simp)
      · rw [List.get?_set_ne _ _ (Ne.symm hij)] at hj
        rw [inv.done_cache j h' hj] at hc
        exact absurd hc (by simp)
    · intro _
      simp [hzero]
    · intro _ hnoprep
      exact absurd (by
        simpa using List.get?_set_eq_of_lt (Phase.prepared s.nextHandle) hlen)
        (hnoprep i s.nextHandle)
  | publish i h hp hli =>
    obtain ⟨hlen, -⟩ := List.get?_eq_some.mp hp
    have hc : s.cache = Option.none := inv.lock_cache i hli
    constructor
    · intro j hj
      simp only at hj ⊢
      by_cases hij : j = i
      · subst hij
        rw [List.get?_set_eq_of_lt _ hlen] at hj
        exact absurd hj (by simp)
      · rw [List.get?_set_ne _ _ (Ne.symm hij)] at hj
        have := inv.locked_lock j hj
        rw [hli] at this
        obtain rfl : j = i := (Option.some.inj this).symm
        rw [hp] at hj
        exact absurd (Option.some.inj hj) (by simp)
    · intro j h' hj
      simp only at hj ⊢
      by_cases hij : j = i
      · subst hij
        rw [List.get?_set_eq_of_lt _ hlen] at hj
        exact absurd hj (by simp)
      · rw [List.get?_set_ne _ _ (Ne.symm hij)] at hj
        have := inv.prepared_lock j h' hj
        rw [hli] at this
        exact absurd (Option.some.inj this).symm hij
    · intro j hlj
      simp only at hlj
      exact absurd hlj (by simp)
    · intro j h' hj
      simp only at hj ⊢
      by_cases hij : j = i
      · subst hij
        rw [List.get?_set_eq_of_lt _ hlen] at hj
        obtain rfl : h = h' := Phase.done.inj (Option.some.inj hj)
        rfl
      · rw [List.get?_set_ne _ _ (Ne.symm hij)] at hj
        rw [inv.done_cache j h' hj] at hc
        exact absurd hc (by simp)
    · intro _
      exact inv.count_one (Or.inr ⟨i, h, hp⟩)
    · intro hnone _
      simp only at hnone
      exact absurd hnone (by simp)

theorem inv_reachable {s : CState} (hr : Reachable s) : Inv s := by
  induction hr with
  | init n => exact inv_init n
  | step _ st ih => exact inv_step ih st

end FirstUse

/-! ### General lemmas about the embedded engine -/

theorem bindSymbol_eq (db : DB) (r : RawSymbol) :
    bindSymbol db r = ((r.marker.name, bindAccessor db.runStmt r),
      { db with prepLog := db.prepLog ++ prepOf r,
                execLog := db.execLog ++ execOf r }) := by
  cases h : r.marker.type <;>
    simp [bindSymbol, bindAccessor, prepOf, execOf, prepareStmt,
      executeStmt, h]

theorem bindStep_eq (as0 : List (String × Accessor)) (db : DB)
    (r : RawSymbol) :
    bindStep (as0, db) r
      = (as0 ++ [(r.marker.name, bindAccessor db.runStmt r)],
         { db with prepLog := db.prepLog ++ prepOf r,
                   execLog := db.execLog ++ execOf r }) := by
  simp [bindStep, bindSymbol_eq]

theorem bind_foldl (syms : List RawSymbol)
    (as0 : List (String × Accessor)) (db : DB) :
    syms.foldl bindStep (as0, db) =
    (as0 ++ syms.map (fun r => (r.marker.name, bindAccessor db.runStmt r)),
     { db with prepLog := db.prepLog ++ syms.flatMap prepOf,
               execLog := db.execLog ++ syms.flatMap execOf }) := by
  induction syms generalizing as0 db with
  | nil => simp
  | cons r rs ih =>
    rw [List.foldl_cons, bindStep_eq, ih]
    simp [List.append_assoc]

theorem bind_eq (lib : Library) (db : DB) :
    bind lib db = (mkBinding db.runStmt lib,
      { db with prepLog := db.prepLog ++ lib.symbols.flatMap prepOf,
                execLog := db.execLog ++ lib.symbols.flatMap execOf }) := by
  unfold bind mkBinding
  rw [bind_foldl]
  simp

theorem firstDup_eq_none_iff (l : List String) :
    firstDup l = Option.none ↔ l.Nodup := by
  induction l with
  | nil => simp [firstDup]
  | cons x xs ih =>
    by_cases hx : x ∈ xs <;> simp [firstDup, hx, ih]

theorem find?_map_of_nodup {α β : Type} (nm : α → String) (f : α → β)
    (syms : List α) (s : α) (hnd : (syms.map nm).Nodup) (hs : s ∈ syms) :
    (syms.map (fun r => (nm r, f r))).find? (fun p => p.1 = nm s)
      = some (nm s, f s) := by
  induction syms with
  | nil => cases hs
  | cons r rs ih =>
    simp only [List.map_cons, List.nodup_cons] at hnd
    rcases List.mem_cons.mp hs with rfl | hmem
    · simp
    · have hne : nm r ≠ nm s := by
        intro he
        exact hnd.1 (he ▸ List.mem_map_of_mem nm hmem)
      simp only [List.map_cons, List.find?_cons, decide_eq_false hne]
      exact ih hnd.2 hmem

theorem chunked_flatten (k : Nat) (l : List α) :
    (chunked k l).flatten = l := by
  have main : ∀ (n : Nat) (l : List α), l.length ≤ n →
      (chunked k l).flatten = l := by
    intro n
    induction n with
    | zero =>
      intro l hl
      obtain rfl : l = [] := List.eq_nil_of_length_eq_zero
        (Nat.le_zero.mp hl)
      simp [chunked]
    | succ n ih =>
      intro l hl
      cases l with
      | nil => simp [chunked]
      | cons x xs =>
        rw [chunked]
        simp only [List.flatten_cons, List.cons_append]
        rw [ih (xs.drop k) (by simp at hl ⊢; omega)]
        simp [List.take_append_drop]
  exact main l.length l le_rfl

theorem columnInvoke_go_eq (data : List (List Int)) :
    columnInvoke.go data = data.map (fun r => r.get? 0) := by
  induction data with
  | nil => rfl
  | cons r rs ih =>
    simp [columnInvoke.go, ih, List.get?_eq_getElem?, List.head?_eq_getElem?]

theorem applyStep_eq (bs0 : List (String × Binding)) (db : DB)
    (p : Library × String) :
    applyStep (bs0, db) p
      = (bs0 ++ [(p.2, mkBinding db.runStmt p.1)],
         { db with prepLog := db.prepLog ++ p.1.symbols.flatMap prepOf,
                   execLog := db.execLog ++ p.1.symbols.flatMap execOf }) := by
  simp [applyStep, bind_eq]

theorem applyTo_foldl (pairs : List (Library × String))
    (bs0 : List (String × Binding)) (db : DB) :
    (pairs.foldl applyStep (bs0, db)).1
        = bs0 ++ pairs.map (fun p => (p.2, mkBinding db.runStmt p.1)) ∧
    (pairs.foldl applyStep (bs0, db)).2.runStmt = db.runStmt := by
  induction pairs generalizing bs0 db with
  | nil => simp
  | cons p ps ih =>
    rw [List.foldl_cons, applyStep_eq]
    obtain ⟨h1, h2⟩ := ih (bs0 ++ [(p.2, mkBinding db.runStmt p.1)])
      { db with prepLog := db.prepLog ++ p.1.symbols.flatMap prepOf,
                execLog := db.execLog ++ p.1.symbols.flatMap execOf }
    exact ⟨by simpa [List.append_assoc] using h1, h2⟩

theorem flatMap_execOf (recs : List RawSymbol) :
    recs.flatMap execOf =
      (recs.filter (fun r => r.marker.type = SymType.const)).map
        (fun r => r.body) := by
  induction recs with
  | nil => rfl
  | cons r rs ih =>
    cases h : r.marker.type <;>
      simp [execOf, List.filter_cons, h, ih]

/-! ### Claim theorems -/

/-- C9: Run as a script, for every command-line argument list (including
an empty one) the dispatch `(sys.argv + [None])[1]` never raises an index
error, and the module writes the docstring to stdout exactly when the
first command-line argument is the string `dump`; otherwise it takes the
interactive help path. -/
theorem main_dispatch_total (prog : String) (args : List String) :
    (∃ a, mainDispatch prog args = .ok a) ∧
    (mainDispatch prog args = .ok MainAction.dumpDoc ↔
      args.head? = some "dump") ∧
    (mainDispatch prog args = .ok MainAction.helpPath ↔
      ¬ args.head? = some "dump") := by
  cases args with
  | nil =>
    refine ⟨⟨MainAction.helpPath, rfl⟩, ?_, ?_⟩ <;>
      simp [mainDispatch, pyIndex, extendedArgv]
  | cons a rest =>
    by_cases h : a = "dump" <;>
      refine ⟨⟨if a = "dump" then MainAction.dumpDoc else MainAction.helpPath,
        by simp [mainDispatch, pyIndex, extendedArgv, h]⟩, ?_, ?_⟩ <;>
      simp [mainDispatch, pyIndex, extendedArgv, h]

/-- C10: In the non-dump branch only a `NameError` from
`help(__package__ + '.lib')` is caught (falling back to
`help(__name__)`); any other exception — in particular the `TypeError`
raised when `__package__` is `None` — propagates uncaught. -/
theorem help_branch_catches_only_name_error (name s : String) :
    helpBranch PkgBinding.unbound name = .ok (HelpTarget.nameHelp name) ∧
    helpBranch PkgBinding.boundNone name = .error PyExc.typeError ∧
    helpBranch (PkgBinding.bound s) name
      = .ok (HelpTarget.pkgHelp (s ++ ".lib")) ∧
    (∀ pkg e, pkgPlusLib pkg = .error e → e ≠ PyExc.nameError →
      helpBranch pkg name = .error e) := by
  refine ⟨rfl, rfl, rfl, ?_⟩
  intro pkg e he hne
  cases pkg <;> simp [pkgPlusLib] at he <;> subst he <;>
    first
      | rfl
      | exact absurd rfl hne

/-- C4: For any statement and parameters, the batches produced by a
chunks-method symbol, concatenated in order, equal the rows-method output
over the identical statement and parameters, element for element. -/
theorem chunks_flatten_eq_rows (k : Nat)
    (run : String → List Int → StmtResult) (text : String)
    (params : List Int) :
    (chunksInvoke k run text params).flatten = rowsInvoke run text params := by
  unfold chunksInvoke
  exact chunked_flatten k _

/-- C5: For any statement and parameters, the column-method output is
exactly the index-0 projection of each row of the rows-method output, in
order. -/
theorem column_eq_rows_proj (run : String → List Int → StmtResult)
    (text : String) (params : List Int) :
    columnInvoke run text params
      = (rowsInvoke run text params).map (fun r => r.get? 0) := by
  unfold columnInvoke
  exact columnInvoke_go_eq _

/-- Witness for C10 at concrete inputs: `__package__ = None` makes the
`TypeError` of `None + '.lib'` propagate out of the help branch. -/
theorem help_branch_witness :
    helpBranch PkgBinding.boundNone "__main__" = .error PyExc.typeError :=
  (help_branch_catches_only_name_error "__main__" "postgresql.documentation").2.2.2
    PkgBinding.boundNone PyExc.typeError rfl (by decide)

/-- C3: A first-method invocation returns the first row's single value on
a one-column result with rows, the empty sentinel on a one-column result
without rows, the entire first row on a multi-column result, and the
affected-row count for non-row-returning DML. -/
theorem first_method_cases (cols : Nat) (data : List (List Int))
    (tag : String) (cnt : Nat) (v : Int) (r : List Int)
    (rest : List (List Int)) :
    (cols = 1 → data = [v] :: rest →
      firstMethod (StmtResult.rowData cols data)
        = some (FirstOut.scalar v)) ∧
    (cols = 1 → data = [] →
      firstMethod (StmtResult.rowData cols data) = Option.none) ∧
    (2 ≤ cols → data = r :: rest →
      firstMethod (StmtResult.rowData cols data)
        = some (FirstOut.fullRow r)) ∧
    firstMethod (StmtResult.dml tag cnt) = some (FirstOut.affected cnt) := by
  refine ⟨?_, ?_, ?_, rfl⟩
  · rintro rfl rfl
    simp [firstMethod]
  · rintro rfl rfl
    simp [firstMethod]
  · rintro hc rfl
    have hne : cols ≠ 1 := by omega
    simp [firstMethod, hne]

/-- Witness for C3 at concrete results: scalar, sentinel, full-row and
row-count cases. -/
theorem first_method_cases_witness :
    firstMethod (StmtResult.rowData 1 [[7]]) = some (FirstOut.scalar 7) ∧
    firstMethod (StmtResult.rowData 1 []) = Option.none ∧
    firstMethod (StmtResult.rowData 2 [[1, 2]])
      = some (FirstOut.fullRow [1, 2]) ∧
    firstMethod (StmtResult.dml "UPDATE 3" 3)
      = some (FirstOut.affected 3) :=
  ⟨(first_method_cases 1 [[7]] "t" 0 7 [] []).1 rfl rfl,
   (first_method_cases 1 [] "t" 0 0 [] []).2.1 rfl rfl,
   (first_method_cases 2 [[1, 2]] "t" 0 0 [1, 2] []).2.2.1 (by decide) rfl,
   (first_method_cases 1 [] "UPDATE 3" 3 0 [] []).2.2.2⟩

/-- C6: For valid marker lines with 0, 1 or 2 colon-separated components
after the name, parsing assigns the default type and method to each
omitted or empty component — so `[name]` and `[name::]` produce identical
symbols — and the name component is required and must be non-empty. -/
theorem marker_component_defaults (line n t m : String) (ty : SymType)
    (me : SymMethod) (hn : n ≠ "") :
    parseComponents line [n]
      = .ok ⟨n, SymType.dfault, SymMethod.dfault⟩ ∧
    parseComponents line [n, ""]
      = .ok ⟨n, SymType.dfault, SymMethod.dfault⟩ ∧
    parseComponents line [n, "", ""]
      = .ok ⟨n, SymType.dfault, SymMethod.dfault⟩ ∧
    parseComponents line [n, "", ""] = parseComponents line [n] ∧
    (parseType t = some ty →
      parseComponents line [n, t] = .ok ⟨n, ty, SymMethod.dfault⟩) ∧
    (parseType t = some ty → parseMethod m = some me →
      parseComponents line [n, t, m] = .ok ⟨n, ty, me⟩) ∧
    (∃ e, parseComponents line [""] = .error e) ∧
    (∃ e, parseComponents line ["", t] = .error e) ∧
    (∃ e, parseComponents line ["", t, m] = .error e) ∧
    parseMarker "[x]" = .ok ⟨"x", SymType.dfault, SymMethod.dfault⟩ ∧
    parseMarker "[x::]" = .ok ⟨"x", SymType.dfault, SymMethod.dfault⟩ := by
  refine ⟨?_, ?_, ?_, ?_, ?_, ?_, ?_, ?_, ?_, ?_, ?_⟩
  · simp [parseComponents, hn]
  · simp [parseComponents, parseType, parseMethod, hn]
  · simp [parseComponents, parseType, parseMethod, hn]
  · simp [parseComponents, parseType, parseMethod, hn]
  · intro hty
    simp [parseComponents, hn, hty]
  · intro hty hme
    simp [parseComponents, hn, hty, hme]
  · exact ⟨.emptyName line, by simp [parseComponents]⟩
  · exact ⟨.emptyName line, by simp [parseComponents]⟩
  · exact ⟨.emptyName line, by simp [parseComponents]⟩
  · rfl
  · rfl

/-- C8: A library source containing two symbols with the same name is
rejected at construction with a definition error; construction never
silently overwrites one symbol with the other (a returned Library keeps
every record). -/
theorem duplicate_symbols_error (nm : String) (recs : List RawSymbol)
    (lib : Library) :
    (¬ (symbolNames recs).Nodup →
      ∃ n, buildLibrary nm recs
          = .error (DefinitionError.duplicateSymbol n)) ∧
    (buildLibrary nm recs = .ok lib →
      (symbolNames recs).Nodup ∧ lib.name = nm ∧ lib.symbols = recs) := by
  constructor
  · intro hnd
    cases h : firstDup (symbolNames recs) with
    | none => exact absurd ((firstDup_eq_none_iff _).mp h) hnd
    | some n => exact ⟨n, by simp [buildLibrary, h]⟩
  · intro hok
    cases h : firstDup (symbolNames recs) with
    | some n => simp [buildLibrary, h] at hok
    | none =>
      have hlib : Library.mk nm recs = lib := by
        simpa [buildLibrary, h] using hok
      subst hlib
      exact ⟨(firstDup_eq_none_iff _).mp h, rfl, rfl⟩

/-- Witness for C8: a duplicated symbol name is rejected; a singleton
source builds a Library keeping its record. -/
theorem duplicate_symbols_error_witness :
    (∃ n, buildLibrary "L" [constSym, constSym]
        = .error (DefinitionError.duplicateSymbol n)) ∧
    ((symbolNames [constSym]).Nodup ∧ demoLib.name = "demo" ∧
      demoLib.symbols = [constSym]) :=
  ⟨(duplicate_symbols_error "L" [constSym, constSym] demoLib).1 (by decide),
   (duplicate_symbols_error "demo" [constSym] demoLib).2 rfl⟩

/-- C7: Building a Category whose pairs map two Libraries to the same
attribute name fails with a definition error at construction (no
connection argument is even consumed); applying a validly constructed
Category to a connection attaches exactly one Binding per pair, in order,
under the chosen attribute name (the Library's own name unless
remapped). -/
theorem category_make_apply (ps : List (Library × Option String))
    (db : DB) (c : Category) :
    (¬ (ps.map chosenName).Nodup →
      ∃ n, Category.make ps
          = .error (DefinitionError.duplicateAttribute n)) ∧
    (Category.make ps = .ok c →
      (c.applyTo db).1
        = ps.map (fun p => (chosenName p, (bind p.1 db).1))) := by
  constructor
  · intro hnd
    cases h : firstDup (ps.map chosenName) with
    | none => exact absurd ((firstDup_eq_none_iff _).mp h) hnd
    | some n => exact ⟨n, by simp [Category.make, h]⟩
  · intro hok
    cases h : firstDup (ps.map chosenName) with
    | some n => simp [Category.make, h] at hok
    | none =>
      have hc : Category.mk (ps.map (fun p => (p.1, chosenName p))) = c := by
        simpa [Category.make, h] using hok
      subst hc
      unfold Category.applyTo
      obtain ⟨h1, -⟩ :=
        applyTo_foldl (ps.map fun p => (p.1, chosenName p)) [] db
      rw [h1]
      simp [List.map_map, Function.comp, bind_eq]

/-- Witness for C7: a name collision is rejected; the spec's two-library
example binds under attributes `A` and `b2`. -/
theorem category_make_apply_witness :
    (∃ n, Category.make [(libA, some "x"), (libB, some "x")]
        = .error (DefinitionError.duplicateAttribute n)) ∧
    (Category.applyTo ⟨[(libA, "A"), (libB, "b2")]⟩ demoDB).1
      = [("A", (bind libA demoDB).1), ("b2", (bind libB demoDB).1)] := by
  refine ⟨(category_make_apply [(libA, some "x"), (libB, some "x")] demoDB
      ⟨[]⟩).1 (by decide), ?_⟩
  have h := (category_make_apply [(libA, Option.none), (libB, some "b2")]
      demoDB ⟨[(libA, "A"), (libB, "b2")]⟩).2 rfl
  simpa [chosenName, libA, libB] using h

/-- C2: A `const` symbol's statement is prepared and executed exactly
once per Binding, at bind time with zero parameters (the bind-time
execution log gains one entry per `const` symbol and nothing else); the
accessor exposes the captured result value directly, not a callable; and
reading the accessor any time afterwards touches neither the Binding nor
the connection. -/
theorem const_bind_once (lib : Library) (db db2 : DB) (s : RawSymbol)
    (hmem : s ∈ lib.symbols) (hconst : s.marker.type = SymType.const)
    (hnd : (symbolNames lib.symbols).Nodup) :
    Binding.lookup (bind lib db).1 s.marker.name
        = some (Accessor.value (db.runStmt s.body [])) ∧
    (bind lib db).2.execLog = db.execLog ++ lib.symbols.flatMap execOf ∧
    execOf s = [s.body] ∧
    lib.symbols.flatMap execOf
      = (lib.symbols.filter (fun r => r.marker.type = SymType.const)).map
          (fun r => r.body) ∧
    access (bind lib db).1 db2 s.marker.name
      = some (Accessor.value (db.runStmt s.body []), (bind lib db).1, db2) := by
  have hfind : ((lib.symbols.map
        (fun r => (r.marker.name, bindAccessor db.runStmt r))).find?
          (fun p => p.1 = s.marker.name))
      = some (s.marker.name, bindAccessor db.runStmt s) :=
    find?_map_of_nodup (fun r => r.marker.name) (bindAccessor db.runStmt)
      lib.symbols s (show (lib.symbols.map
        (fun r => r.marker.name)).Nodup from hnd) hmem
  have hacc : bindAccessor db.runStmt s
      = Accessor.value (db.runStmt s.body []) := by
    simp [bindAccessor, hconst]
  have hlook : Binding.lookup (bind lib db).1 s.marker.name
      = some (Accessor.value (db.runStmt s.body [])) := by
    rw [bind_eq]
    simp [Binding.lookup, mkBinding, hfind, hacc]
  refine ⟨hlook, ?_, ?_, flatMap_execOf _, ?_⟩
  · simp [bind_eq]
  · simp [execOf, hconst]
  · simp [access, hlook]

/-- Witness for C2 on the sample library: the one `const` symbol is
executed once at bind time and its value accessor is inert under
reads. -/
theorem const_bind_once_witness :
    Binding.lookup (bind demoLib demoDB).1 constSym.marker.name
        = some (Accessor.value (demoDB.runStmt constSym.body [])) ∧
    (bind demoLib demoDB).2.execLog
        = demoDB.execLog ++ demoLib.symbols.flatMap execOf ∧
    execOf constSym = [constSym.body] ∧
    demoLib.symbols.flatMap execOf
      = (demoLib.symbols.filter
          (fun r => r.marker.type = SymType.const)).map (fun r => r.body) ∧
    access (bind demoLib demoDB).1 demoDB constSym.marker.name
      = some (Accessor.value (demoDB.runStmt constSym.body []),
              (bind demoLib demoDB).1, demoDB) :=
  const_bind_once demoLib demoDB demoDB constSym (by decide) rfl (by decide)

/-- C1: Under the Binding's exclusive-acquire-then-publish first-use
discipline, every interleaving of N concurrent first-use callers of one
default-type symbol that runs to completion issues exactly one
preparation request against the connection, and all N callers finish
holding the same published handle. -/
theorem first_use_single_prepare (s : FirstUse.CState)
    (hr : FirstUse.Reachable s) (hne : s.phases ≠ [])
    (hdone : ∀ p ∈ s.phases, ∃ h, p = FirstUse.Phase.done h) :
    s.prepCount = 1 ∧
    ∃ h, s.cache = some h ∧
      ∀ p ∈ s.phases, p = FirstUse.Phase.done h := by
  have inv := FirstUse.inv_reachable hr
  obtain ⟨p0, hp0⟩ := List.exists_mem_of_ne_nil _ hne
  obtain ⟨h0, rfl⟩ := hdone p0 hp0
  obtain ⟨i0, hi0⟩ := List.get?_of_mem hp0
  have hc : s.cache = some h0 := inv.done_cache i0 h0 hi0
  refine ⟨inv.count_one (Or.inl (by simp [hc])), h0, hc, ?_⟩
  intro p hp
  obtain ⟨h, rfl⟩ := hdone p hp
  obtain ⟨i, hi⟩ := List.get?_of_mem hp
  have hch := inv.done_cache i h hi
  rw [hc] at hch
  obtain rfl : h0 = h := Option.some.inj hch
  rfl

/-- Witness for C1: a concrete two-caller interleaving (caller 0
acquires, prepares and publishes; caller 1 reads the cache) reaches the
sample final state, where exactly one preparation was issued and both
callers hold handle 0. -/
theorem first_use_single_prepare_witness :
    FirstUse.demoFinal.prepCount = 1 ∧
    ∃ h, FirstUse.demoFinal.cache = some h ∧
      ∀ p ∈ FirstUse.demoFinal.phases, p = FirstUse.Phase.done h := by
  have r0 : FirstUse.Reachable (FirstUse.initState 2) :=
    FirstUse.Reachable.init 2
  have r1 : FirstUse.Reachable
      ⟨Option.none, some 0, 0, 0,
        [FirstUse.Phase.locked, FirstUse.Phase.start]⟩ :=
    r0.step (FirstUse.Step.acquire _ 0 rfl rfl rfl)
  have r2 : FirstUse.Reachable
      ⟨Option.none, some 0, 1, 1,
        [FirstUse.Phase.prepared 0, FirstUse.Phase.start]⟩ :=
    r1.step (FirstUse.Step.doPrepare _ 0 rfl rfl)
  have r3 : FirstUse.Reachable
      ⟨some 0, Option.none, 1, 1,
        [FirstUse.Phase.done 0, FirstUse.Phase.start]⟩ :=
    r2.step (FirstUse.Step.publish _ 0 0 rfl rfl)
  have r4 : FirstUse.Reachable FirstUse.demoFinal :=
    r3.step (FirstUse.Step.readCache _ 1 0 rfl rfl)
  refine first_use_single_prepare _ r4 (by decide) ?_
  intro p hp
  simp only [FirstUse.demoFinal, List.mem_cons, List.not_mem_nil,
    or_false] at hp
  rcases hp with rfl | rfl <;> exact ⟨0, rfl⟩

/-- Witness for C6 at concrete markers. -/
theorem marker_component_defaults_witness :
    parseComponents "[u]" ["u"]
      = .ok ⟨"u", SymType.dfault, SymMethod.dfault⟩ ∧
    parseComponents "[u]" ["u", "preload", "rows"]
      = .ok ⟨"u", SymType.preload, SymMethod.rows⟩ ∧
    (∃ e, parseComponents "[u]" [""] = .error e) := by
  have h := marker_component_defaults "[u]" "u" "preload" "rows"
    SymType.preload SymMethod.rows (by decide)
  exact ⟨h.1, h.2.2.2.2.2.1 (by decide) (by decide), h.2.2.2.2.2.2.1⟩

end PgLib
